import Mathlib

/-!
# Verification of the top.gg scraper pipeline (src/index.js)

Shallow embedding of the source functions in `src/index.js`:
`chunks`, `getUrl`, the fetch loop of `getServers`, `simplify`, `compare`,
the sort/filter stages of `parseServers`, and `write`.

JavaScript objects are modelled by a single record type `SObj` whose
fields are all optional (a JS property read on an object that lacks the
property yields `undefined`, modelled as `none`).  Numeric comparisons
against `undefined` are false in JavaScript (`undefined < x`,
`undefined > x` and `undefined <= x` all evaluate to `false`); the
helpers `jsLt` / `jsGt` embed exactly that behaviour.
-/

namespace TopGG

/-- A JavaScript object as it flows through this pipeline: the fields the
code ever reads (`id`, `name`, `memberCount` on raw API entities; `_id`,
`name`, `members` on simplified records), each possibly absent, plus a
bag of additional fields carried verbatim (raw API records may have
arbitrary extra fields). -/
structure SObj where
  id : Option String := none
  name : Option String := none
  memberCount : Option Int := none
  _id : Option String := none
  members : Option Int := none
  extra : List (String × String) := []
deriving DecidableEq, Repr

/-- JavaScript `<` on two possibly-undefined numbers: true only when both
operands are numbers and the first is smaller (any comparison involving
`undefined` is false). -/
def jsLt : Option Int → Option Int → Bool
  | some x, some y => x < y
  | _, _ => false

/-- JavaScript `>` on two possibly-undefined numbers. -/
def jsGt : Option Int → Option Int → Bool
  | some x, some y => x > y
  | _, _ => false

/-- Embeds `chunks(amount, split = 1000)` from src/index.js lines 86-94:
repeatedly push `split` and subtract while `amount > split`, then push
the final remainder.  The `split` parameter takes its default `1000` at
the only call site (`getServers` calls `chunks(amount)`), so it is
embedded at that value. -/
def chunks (amount : Int) : List Int :=
  if amount > 1000 then 1000 :: chunks (amount - 1000) else [amount]
termination_by amount.toNat
decreasing_by simp_wf; omega

theorem chunks_sum (n : Int) : (chunks n).sum = n := by
  induction n using chunks.induct with
  | case1 n h ih => rw [chunks, if_pos h]; simp [ih]
  | case2 n h => rw [chunks, if_neg h]; simp

lemma chunks_of_gt {n : Int} (h : n > 1000) : chunks n = 1000 :: chunks (n - 1000) := by
  rw [chunks, if_pos h]

lemma chunks_of_le {n : Int} (h : ¬ n > 1000) : chunks n = [n] := by
  rw [chunks, if_neg h]

/-- Embeds `getUrl(a, s, t, q)` from src/index.js lines 149-160.  The
source declares defaults `s = 0`, `t = null`, `q = null`; the embedding
takes every argument explicitly. -/
structure UrlObj where
  url : String
  skip : Int
deriving DecidableEq

def getUrl (a s : Int) (t q : Option String) : UrlObj :=
  let tags := match t with
    | none => ""
    | some tv => "tags=" ++ tv ++ "&"
  let query := match q with
    | none => ""
    | some qv => "q=" ++ qv ++ "&"
  { url := "https://top.gg/api/client/entities/search?" ++ query ++ tags ++
      "platform=discord&entityType=server&amount=" ++ toString a ++ "&skip=" ++ toString s
    skip := a }

/-- The `options` object of `getServers`: optional `tags` and `query`. -/
structure Options where
  tags : Option String := none
  query : Option String := none

/-- The `extras` object of `getServers`/`parseServers`.  Absent numeric /
string members are `none` (JavaScript `undefined`). -/
structure Extras where
  simplify : Bool := false
  sort : Bool := false
  filter : Bool := false
  write : Bool := false
  filterSize : Option Int := none
  file : Option String := none
deriving DecidableEq

/-- Embeds `simplify(json)` from src/index.js lines 129-139: each object
is replaced by a fresh object carrying exactly the keys `_id`, `name`,
`members`, copied from `id`, `name`, `memberCount` (all other fields of
the fresh object are absent). -/
def simplify (json : List SObj) : List SObj :=
  json.map fun s => { _id := s.id, name := s.name, members := s.memberCount }

/-- Embeds `compare(a, b)` from src/index.js lines 114-122: `1` when
`a.members < b.members`, `-1` when `a.members > b.members`, else `0`
(JavaScript comparisons on `undefined` are false). -/
def compare (a b : SObj) : Int :=
  if jsLt a.members b.members then 1
  else if jsLt b.members a.members then -1
  else 0

/-- The ordering `SL.sort(compare)` sorts by: `a` may precede `b` exactly
when the comparator does not demand the opposite order. -/
def sortLe (a b : SObj) : Prop := compare a b ≤ 0

instance : DecidableRel sortLe := fun a b => inferInstanceAs (Decidable (compare a b ≤ 0))

/-- Embeds `SL.sort(compare)` (src/index.js line 50).
`Array.prototype.sort` with a consistent comparator produces a stable
arrangement in which the comparator never reports a misordered pair;
stable insertion sort by `sortLe` realises exactly that contract. -/
def sortJS (l : List SObj) : List SObj := List.insertionSort sortLe l

/-- Embeds `write(file, array)` from src/index.js lines 101-106.
`fs.writeFile`'s outcome is passed in as `fsOutcome`; the callback
`function (err) { if (err) return console.log(err) }` turns a failure
into a console log entry and nothing else — no exception escapes.  The
returned value is the console log produced by the call. -/
def write (file : String) (array : List SObj) (fsOutcome : Except String Unit) : List String :=
  match file, array, fsOutcome with
  | _, _, .ok _ => []
  | _, _, .error err => [err]

/-- Embeds `parseServers(json, extras)` from src/index.js lines 44-62.
Returns the list the function returns, paired with the console log of
the (possibly failing) file write.  `fsOutcome` is the outcome the
filesystem would give the write, threaded in because the filesystem is
an external capability. -/
def parseServers (json : List SObj) (extras : Extras) (fsOutcome : Except String Unit) :
    List SObj × List String :=
  let SL := if extras.simplify = true then simplify json else json
  let SL := if extras.sort = true then sortJS SL else SL
  let L := if extras.filter = true ∧ jsGt extras.filterSize (some 0) = true then
      SL.filter fun s => jsGt s.members extras.filterSize
    else SL
  let log := if extras.write = true ∧ extras.file.isSome = true then
      write (extras.file.getD "") L fsOutcome
    else []
  (L, log)

/-- One HTTP request issued by the fetch loop of `getServers`: the
`amount` and `skip` parameters it carried and its full URL. -/
structure Request where
  amount : Int
  skip : Int
  url : String
deriving DecidableEq

/-- A failure of one page fetch: a transport error from `request` (the
promise in `req2await` rejects) or a `JSON.parse` failure on the body.
Either aborts `getServers` with no partial result. -/
inductive FetchErr where
  | network (msg : String)
  | badBody (msg : String)
deriving DecidableEq

/-- Embeds the fetch loop of `getServers` (src/index.js lines 20-32):
for each chunk, build the URL at the current skip offset, fetch and
parse it through the network oracle `net` (modelling
`JSON.parse(await req2await(url)).results`), concatenate the pages, and
advance the offset by the `skip` field `getUrl` reported.  Also records
the sequence of requests issued. -/
def fetchLoop (net : String → Except FetchErr (List SObj)) (tags query : Option String) :
    List Int → Int → Except FetchErr (List SObj × List Request)
  | [], _ => .ok ([], [])
  | c :: cs, skip =>
    let obj := getUrl c skip tags query
    match net obj.url with
    | .error e => .error e
    | .ok list =>
      match fetchLoop net tags query cs (skip + obj.skip) with
      | .error e => .error e
      | .ok (rest, reqs) => .ok (list ++ rest, ⟨c, skip, obj.url⟩ :: reqs)

/-- Embeds `getServers(amount, options, extras)` from src/index.js lines
19-37 (exported as `Get`): plan the chunks, run the fetch loop from skip
offset `0`, then post-process with `parseServers`.  Returns the final
list together with the requests issued and the console log. -/
def getServers (amount : Int) (options : Options) (extras : Extras)
    (net : String → Except FetchErr (List SObj)) (fsOutcome : Except String Unit) :
    Except FetchErr (List SObj × List Request × List String) :=
  let chunkList := chunks amount
  match fetchLoop net options.tags options.query chunkList 0 with
  | .error e => .error e
  | .ok (serverList, reqs) =>
    let out := parseServers serverList extras fsOutcome
    .ok (out.1, reqs, out.2)

/-- Descending order of member count, reading the `members` attribute:
the later record's count is at most the earlier one's. -/
def descRel (x y : SObj) : Prop := y.members.getD 0 ≤ x.members.getD 0

instance : DecidableRel descRel :=
  fun x y => inferInstanceAs (Decidable (y.members.getD 0 ≤ x.members.getD 0))

lemma chunks_ne_nil (n : Int) : chunks n ≠ [] := by
  rw [chunks]; split <;> simp

/-- C1: for every non-negative `totalCount`, the chunk sequence emitted
by `chunks` (with its default page cap 1000) sums exactly to
`totalCount`. -/
theorem chunks_sum_nonneg (n : Int) (h : 0 ≤ n) : (chunks n).sum = n := chunks_sum n

/-- Witness for C1 at `totalCount = 2500`. -/
theorem chunks_sum_nonneg_witness : (0:Int) ≤ 2500 ∧ (chunks 2500).sum = 2500 :=
  ⟨by norm_num, chunks_sum_nonneg 2500 (by norm_num)⟩

lemma chunks_2000_eval : chunks 2000 = [1000, 1000] := by
  rw [chunks_of_gt (by norm_num)]
  norm_num
  rw [chunks_of_le (by norm_num)]

/-- C2 counterexample: `chunks(2000)` is not `[1000, 1000, 0]` — the
loop guard `amount > split` is strict, so once the remainder equals the
page cap the loop stops and the remainder itself is pushed; no trailing
zero-size chunk appears. -/
theorem chunks_2000_counterexample : chunks 2000 ≠ [1000, 1000, 0] := by
  rw [chunks_2000_eval]; decide

/-- C2 amended: for `totalCount = 2000` and the default page cap 1000,
the chunk sequence is `[1000, 1000]`; an exact non-zero multiple of the
page cap produces no trailing zero-size chunk. -/
theorem chunks_2000_eq : chunks 2000 = [1000, 1000] := chunks_2000_eval

/-- C4 counterexample: at the negative amount `-5` the planner does not
fail — there is no validation anywhere in `chunks` — it returns the
chunk sequence `[-5]`. -/
theorem chunks_negative_counterexample : chunks (-5) = [-5] := chunks_of_le (by norm_num)

/-- C4 amended: for every negative `totalCount` the planner raises no
`InvalidArgument` error (no error path exists in the source); it
returns the single-element chunk sequence `[totalCount]`. -/
theorem chunks_negative_eq (n : Int) (h : n < 0) : chunks n = [n] := chunks_of_le (by omega)

/-- Witness for the amended C4 at `totalCount = -7`. -/
theorem chunks_negative_eq_witness : (-7 : Int) < 0 ∧ chunks (-7) = [-7] :=
  ⟨by norm_num, chunks_negative_eq (-7) (by norm_num)⟩

/-- C10: for every positive `totalCount` the planner emits exactly
`⌈totalCount / 1000⌉` chunks, each between 1 and 1000; when
`totalCount` is an exact multiple of 1000 the final chunk is 1000, so
no zero-size chunk (hence no zero-amount request) ever arises from a
positive `totalCount`. -/
theorem chunks_length_bounds (n : Int) (h : 0 < n) :
    (chunks n).length = (n.toNat + 999) / 1000 ∧
    (∀ c ∈ chunks n, 1 ≤ c ∧ c ≤ 1000) ∧
    ((1000:Int) ∣ n → (chunks n).getLast? = some 1000) := by
  revert h
  induction n using chunks.induct with
  | case1 n hgt ih =>
    intro _
    have ih' := ih (by omega)
    rw [chunks_of_gt hgt]
    refine ⟨?_, ?_, ?_⟩
    · have h1 := ih'.1
      simp only [List.length_cons, h1]
      omega
    · intro c hc
      rcases List.mem_cons.mp hc with rfl | hc
      · omega
      · exact ih'.2.1 c hc
    · intro hd
      have hd' : (1000:Int) ∣ (n - 1000) := by omega
      have h3 := ih'.2.2 hd'
      obtain ⟨x, xs, hxe⟩ := List.exists_cons_of_ne_nil (chunks_ne_nil (n - 1000))
      rw [hxe] at h3 ⊢
      rw [List.getLast?_cons_cons]
      exact h3
  | case2 n hle =>
    intro h
    rw [chunks_of_le hle]
    refine ⟨by simp; omega, ?_, ?_⟩
    · intro c hc
      rcases List.mem_singleton.mp hc with rfl
      omega
    · intro hd
      have : n = 1000 := by omega
      simp [this]

/-- Witness for C10 at `totalCount = 3000`. -/
theorem chunks_length_bounds_witness :
    (0:Int) < 3000 ∧
    ((chunks 3000).length = ((3000:Int).toNat + 999) / 1000 ∧
     (∀ c ∈ chunks 3000, 1 ≤ c ∧ c ≤ 1000) ∧
     ((1000:Int) ∣ 3000 → (chunks 3000).getLast? = some 1000)) :=
  ⟨by norm_num, chunks_length_bounds 3000 (by norm_num)⟩

lemma sortLe_iff_of_some {a b : SObj} {u v : Int} (ha : a.members = some u)
    (hb : b.members = some v) : sortLe a b ↔ v ≤ u := by
  simp only [sortLe, compare, jsLt, ha, hb]
  by_cases h : u < v
  · simp [h]
  · by_cases h2 : v < u <;> simp [h, h2] <;> omega

lemma descRel_of_le {a b : SObj} {u v : Int} (ha : a.members = some u)
    (hb : b.members = some v) (h : v ≤ u) : descRel a b := by
  simp [descRel, ha, hb, h]

lemma orderedInsert_pairwise (a : SObj) (l : List SObj)
    (ha : a.members.isSome) (hl : ∀ x ∈ l, x.members.isSome)
    (hp : l.Pairwise descRel) : (List.orderedInsert sortLe a l).Pairwise descRel := by
  induction l with
  | nil => simp [List.orderedInsert]
  | cons b t ih =>
    obtain ⟨u, hu⟩ := Option.isSome_iff_exists.mp ha
    obtain ⟨v, hv⟩ := Option.isSome_iff_exists.mp (hl b (by simp))
    have hpt := (List.pairwise_cons.mp hp)
    rw [List.orderedInsert]
    by_cases h : sortLe a b
    · rw [if_pos h]
      have hab : descRel a b := descRel_of_le hu hv ((sortLe_iff_of_some hu hv).mp h)
      refine List.pairwise_cons.mpr ⟨?_, hp⟩
      intro x hx
      rcases List.mem_cons.mp hx with rfl | hx
      · exact hab
      · have hbx : descRel b x := hpt.1 x hx
        unfold TopGG.descRel at hab hbx ⊢
        omega
    · rw [if_neg h]
      have hba : descRel b a := by
        have huv : ¬ v ≤ u := fun hc => h ((sortLe_iff_of_some hu hv).mpr hc)
        exact descRel_of_le hv hu (by omega)
      refine List.pairwise_cons.mpr ⟨?_, ?_⟩
      · intro x hx
        rcases (List.mem_orderedInsert sortLe).mp hx with rfl | hx
        · exact hba
        · exact hpt.1 x hx
      · exact ih (fun x hx => hl x (by simp [hx])) hpt.2

lemma sortJS_pairwise (l : List SObj) (hl : ∀ x ∈ l, x.members.isSome) :
    (sortJS l).Pairwise descRel := by
  induction l with
  | nil => simp [sortJS, List.insertionSort]
  | cons a t ih =>
    have ht : ∀ x ∈ t, x.members.isSome := fun x hx => hl x (by simp [hx])
    have hst : ∀ x ∈ sortJS t, x.members.isSome := fun x hx =>
      ht x ((List.perm_insertionSort sortLe t).mem_iff.mp hx)
    exact orderedInsert_pairwise a (sortJS t) (hl a (by simp)) hst (ih ht)

lemma sortJS_eq_of_none (l : List SObj) (h : ∀ x ∈ l, x.members = none) : sortJS l = l := by
  apply List.Sorted.insertionSort_eq
  apply List.pairwise_of_forall_mem_list
  intro a ha b hb
  simp [sortLe, compare, jsLt, h a ha, h b hb]

lemma simplify_members_isSome {json : List SObj} (h : ∀ s ∈ json, s.memberCount.isSome) :
    ∀ x ∈ simplify json, x.members.isSome := by
  intro x hx
  simp only [simplify, List.mem_map] at hx
  obtain ⟨s, hs, rfl⟩ := hx
  exact h s hs

lemma sortJS_members_isSome {l : List SObj} (h : ∀ x ∈ l, x.members.isSome) :
    ∀ x ∈ sortJS l, x.members.isSome := fun x hx =>
  h x ((List.perm_insertionSort sortLe l).mem_iff.mp hx)

/-- A raw API entity with member count 100 (fields as the remote API
returns them: `id`, `name`, `memberCount`; no `members`). -/
def rawA : SObj := { id := some "a", name := some "A", memberCount := some 100 }

/-- A raw API entity with member count 200. -/
def rawB : SObj := { id := some "b", name := some "B", memberCount := some 200 }

/-- A raw API entity with member count 500. -/
def rawC : SObj := { id := some "c", name := some "C", memberCount := some 500 }

/-- The projection of `rawC`. -/
def simpC : SObj := { _id := some "c", name := some "C", members := some 500 }

/-- Extras with only `sort` enabled. -/
def exSortOnly : Extras := { sort := true }

/-- Extras with only `filter` enabled, threshold 100. -/
def exFilterOnly : Extras := { filter := true, filterSize := some 100 }

/-- Extras enabling `simplify` and `sort`. -/
def exW3 : Extras := { simplify := true, sort := true }

/-- Extras enabling `simplify` and `filter` with threshold 200. -/
def exW5 : Extras := { simplify := true, filter := true, filterSize := some 200 }

/-- Extras enabling `write` with a target file. -/
def exW7 : Extras := { write := true, file := some "out.json" }

/-- C3 counterexample: with `sort` enabled but `simplify` off, raw
entities carry `memberCount` and no `members`; the comparator reads the
absent `members` attribute on every pair, returns 0, and the stable
sort leaves the list untouched.  The output `[rawA, rawB]` has member
counts 100, 200 — not descending. -/
theorem sort_raw_counterexample :
    (parseServers [rawA, rawB] exSortOnly (Except.ok ())).1 = [rawA, rawB] ∧
    ¬ (rawB.memberCount.getD 0 ≤ rawA.memberCount.getD 0) := by
  decide

/-- C3 amended: with `sort` enabled, if `simplify` ran first (and every
source entity has a `memberCount`) the output is sorted in descending
order of the `members` attribute; if `simplify` did not run the
comparator reads the absent `members` attribute of the raw records and
the list keeps its original order (here stated with `filter` off so the
whole output is that unsorted list). -/
theorem sort_effect (json : List SObj) (extras : Extras) (o : Except String Unit)
    (hsort : extras.sort = true) :
    (extras.simplify = true → (∀ s ∈ json, s.memberCount.isSome) →
      (∀ x ∈ (parseServers json extras o).1, x.members.isSome) ∧
      (parseServers json extras o).1.Chain' descRel) ∧
    (extras.simplify = false → (∀ s ∈ json, s.members = none) → extras.filter = false →
      (parseServers json extras o).1 = json) := by
  constructor
  · intro hsimp hmc
    have hP : (sortJS (simplify json)).Pairwise descRel :=
      sortJS_pairwise _ (simplify_members_isSome hmc)
    have hS : ∀ x ∈ sortJS (simplify json), x.members.isSome :=
      sortJS_members_isSome (simplify_members_isSome hmc)
    simp only [parseServers, hsimp, hsort, if_true]
    by_cases hf : extras.filter = true ∧ jsGt extras.filterSize (some 0) = true
    · rw [if_pos hf]
      refine ⟨?_, (hP.sublist (List.filter_sublist _)).chain'⟩
      intro x hx
      exact hS x (List.mem_filter.mp hx).1
    · rw [if_neg hf]
      exact ⟨hS, hP.chain'⟩
  · intro hsimp hnone hfilter
    simp only [parseServers, hsimp, hsort, hfilter, if_true]
    simp [sortJS_eq_of_none json hnone]

/-- Witness for the amended C3: two simplified records get sorted
descending. -/
theorem sort_effect_witness :
    (exW3.sort = true ∧ exW3.simplify = true ∧ ∀ s ∈ [rawA, rawB], s.memberCount.isSome) ∧
    ((∀ x ∈ (parseServers [rawA, rawB] exW3 (Except.ok ())).1, x.members.isSome) ∧
     (parseServers [rawA, rawB] exW3 (Except.ok ())).1.Chain' descRel) :=
  ⟨⟨rfl, rfl, by decide⟩,
   (sort_effect [rawA, rawB] exW3 (Except.ok ()) rfl).1 rfl (by decide)⟩

/-- C5 counterexample: filter enabled with threshold 100 and `simplify`
off: `rawC` has member count 500, strictly above the threshold, yet it
is dropped, because the filter predicate reads the absent `members`
attribute of the raw record. -/
theorem filter_raw_counterexample :
    (parseServers [rawC] exFilterOnly (Except.ok ())).1 = [] ∧
    jsGt rawC.memberCount (some 100) = true := by
  decide

/-- C5 amended: with `filter` enabled and a positive threshold, if
`simplify` ran first (and `sort` did not reorder) the output is exactly
the projected records whose `members` strictly exceeds the threshold,
in their original relative order; if `simplify` did not run, the
predicate reads the absent `members` attribute and every record is
dropped. -/
theorem filter_effect (json : List SObj) (extras : Extras) (o : Except String Unit)
    (hf : extras.filter = true) (hT : jsGt extras.filterSize (some 0) = true) :
    (extras.simplify = true → extras.sort = false →
      (parseServers json extras o).1 =
        (simplify json).filter (fun s => jsGt s.members extras.filterSize) ∧
      ∀ x ∈ (parseServers json extras o).1, jsGt x.members extras.filterSize = true) ∧
    (extras.simplify = false → (∀ s ∈ json, s.members = none) →
      (parseServers json extras o).1 = []) := by
  constructor
  · intro hsimp hsort
    constructor
    · simp [parseServers, hsimp, hsort, hf, hT]
    · intro x hx
      simp only [parseServers, hsimp, hsort, hf, hT, and_self, if_true,
        Bool.false_eq_true, if_false] at hx
      exact (List.mem_filter.mp hx).2
  · intro hsimp hnone
    simp only [parseServers, hsimp, hf, hT, and_self, if_true, Bool.false_eq_true, if_false]
    by_cases hs : extras.sort = true
    · simp only [hs, if_true, sortJS_eq_of_none json hnone]
      refine List.filter_eq_nil_iff.mpr ?_
      intro a ha
      simp [jsGt, hnone a ha]
    · simp only [hs, if_false]
      refine List.filter_eq_nil_iff.mpr ?_
      intro a ha
      simp [jsGt, hnone a ha]

/-- Witness for the amended C5: of two projected records with member
counts 100 and 500 and threshold 200, exactly the 500 one remains. -/
theorem filter_effect_witness :
    (exW5.filter = true ∧ jsGt exW5.filterSize (some 0) = true ∧
     exW5.simplify = true ∧ exW5.sort = false) ∧
    ((parseServers [rawA, rawC] exW5 (Except.ok ())).1 =
       (simplify [rawA, rawC]).filter (fun s => jsGt s.members exW5.filterSize) ∧
     ∀ x ∈ (parseServers [rawA, rawC] exW5 (Except.ok ())).1,
       jsGt x.members exW5.filterSize = true) :=
  ⟨⟨rfl, rfl, rfl, rfl⟩,
   (filter_effect [rawA, rawC] exW5 (Except.ok ()) rfl rfl).1 rfl rfl⟩

/-- C6: `simplify` keeps length and order, and each output record
carries exactly `_id`, `name`, `members` — copied from the source's
`id`, `name`, `memberCount` — with every other field absent. -/
theorem simplify_fields (json : List SObj) :
    (simplify json).length = json.length ∧
    ∀ (i : Nat) (s t : SObj), json[i]? = some s → (simplify json)[i]? = some t →
      t._id = s.id ∧ t.name = s.name ∧ t.members = s.memberCount ∧
      t.id = none ∧ t.memberCount = none ∧ t.extra = [] := by
  refine ⟨by simp [simplify], ?_⟩
  intro i s t hs ht
  rw [simplify, List.getElem?_map, hs] at ht
  simp only [Option.map_some', Option.some.injEq] at ht
  subst ht
  exact ⟨rfl, rfl, rfl, rfl, rfl, rfl⟩

/-- Witness for C6 at the record `rawC`. -/
theorem simplify_fields_witness :
    ([rawC][0]? = some rawC) ∧ ((simplify [rawC])[0]? = some simpC) ∧
    (simpC._id = rawC.id ∧ simpC.name = rawC.name ∧ simpC.members = rawC.memberCount ∧
     simpC.id = none ∧ simpC.memberCount = none ∧ simpC.extra = []) :=
  ⟨by decide, by decide, (simplify_fields [rawC]).2 0 rawC simpC (by decide) (by decide)⟩

/-- C7: a failing file write is swallowed — with `write` enabled and a
target file present, the returned list is identical whether the
filesystem reports success or an error, and the error is merely
logged. -/
theorem write_failure_swallowed (json : List SObj) (extras : Extras) (e : String)
    (hw : extras.write = true) (hfile : extras.file.isSome = true) :
    (parseServers json extras (Except.error e)).1 =
      (parseServers json extras (Except.ok ())).1 ∧
    (parseServers json extras (Except.error e)).2 = [e] := by
  refine ⟨rfl, ?_⟩
  simp [parseServers, hw, hfile, write]

/-- Witness for C7: writing `[rawC]` to `out.json` fails with
"disk full"; the returned list is unchanged and the failure is only
logged. -/
theorem write_failure_swallowed_witness :
    (exW7.write = true ∧ exW7.file.isSome = true) ∧
    ((parseServers [rawC] exW7 (Except.error "disk full")).1 =
       (parseServers [rawC] exW7 (Except.ok ())).1 ∧
     (parseServers [rawC] exW7 (Except.error "disk full")).2 = ["disk full"]) :=
  ⟨⟨rfl, rfl⟩, write_failure_swallowed [rawC] exW7 "disk full" rfl rfl⟩

lemma fetchLoop_ok_spec (net : String → Except FetchErr (List SObj)) (t q : Option String) :
    ∀ (cs : List Int) (s0 : Int) (res : List SObj) (reqs : List Request),
      fetchLoop net t q cs s0 = .ok (res, reqs) →
      reqs.length = cs.length ∧
      ∀ (i : Nat) (r : Request), reqs[i]? = some r →
        r.skip = s0 + (cs.take i).sum ∧ r.amount = cs.getD i 0 := by
  intro cs
  induction cs with
  | nil =>
    intro s0 res reqs h
    simp only [fetchLoop, Except.ok.injEq, Prod.mk.injEq] at h
    obtain ⟨h1, h2⟩ := h
    subst h1 h2
    exact ⟨rfl, by intro i r hr; simp at hr⟩
  | cons c cs ih =>
    intro s0 res reqs h
    simp only [fetchLoop] at h
    cases hnet : net (getUrl c s0 t q).url with
    | error e => rw [hnet] at h; simp at h
    | ok list =>
      rw [hnet] at h
      cases hrec : fetchLoop net t q cs (s0 + (getUrl c s0 t q).skip) with
      | error e => rw [hrec] at h; simp at h
      | ok pr =>
        obtain ⟨rest, reqs'⟩ := pr
        rw [hrec] at h
        simp only [Except.ok.injEq, Prod.mk.injEq] at h
        obtain ⟨hres, hreqs⟩ := h
        subst hres hreqs
        have ih' := ih (s0 + (getUrl c s0 t q).skip) rest reqs' hrec
        constructor
        · simp [ih'.1]
        · intro i r hr
          cases i with
          | zero =>
            simp only [List.getElem?_cons_zero, Option.some.injEq] at hr
            subst hr
            simp
          | succ j =>
            simp only [List.getElem?_cons_succ] at hr
            have hj := ih'.2 j r hr
            have hskipc : (getUrl c s0 t q).skip = c := rfl
            constructor
            · rw [hj.1, hskipc]
              simp [List.sum_cons]
              omega
            · simpa using hj.2

/-- C8: the fetch loop starts at skip offset 0 and the i-th request's
`skip` parameter equals the sum of the sizes of all earlier chunks —
because `getUrl` reports a `skip` advance equal to the chunk size for
every chunk. -/
theorem skip_accumulation (net : String → Except FetchErr (List SObj)) (t q : Option String)
    (chunkList : List Int) (res : List SObj) (reqs : List Request)
    (h : fetchLoop net t q chunkList 0 = .ok (res, reqs)) :
    reqs.length = chunkList.length ∧
    (∀ (i : Nat) (r : Request), reqs[i]? = some r →
      r.skip = (chunkList.take i).sum ∧ r.amount = chunkList.getD i 0) ∧
    (∀ (a s : Int) (t' q' : Option String), (getUrl a s t' q').skip = a) := by
  have hs := fetchLoop_ok_spec net t q chunkList 0 res reqs h
  refine ⟨hs.1, ?_, fun a s t' q' => rfl⟩
  intro i r hr
  have hi := hs.2 i r hr
  constructor
  · rw [hi.1]; omega
  · exact hi.2

/-- A network oracle answering every request with the single page
`[rawC]`. -/
def netConst : String → Except FetchErr (List SObj) := fun _ => .ok [rawC]

/-- The two requests the fetch loop issues for the chunk plan
`[1000, 500]`. -/
def reqsW : List Request :=
  [⟨1000, 0, (getUrl 1000 0 none none).url⟩, ⟨500, 1000, (getUrl 500 1000 none none).url⟩]

/-- Witness for C8 on the chunk plan `[1000, 500]`. -/
theorem skip_accumulation_witness :
    (fetchLoop netConst none none [1000, 500] 0 = Except.ok ([rawC, rawC], reqsW)) ∧
    (reqsW.length = ([1000, 500] : List Int).length ∧
     (∀ (i : Nat) (r : Request), reqsW[i]? = some r →
        r.skip = (([1000, 500] : List Int).take i).sum ∧
        r.amount = ([1000, 500] : List Int).getD i 0) ∧
     (∀ (a s : Int) (t' q' : Option String), (getUrl a s t' q').skip = a)) := by
  have hW : fetchLoop netConst none none [1000, 500] 0 = Except.ok ([rawC, rawC], reqsW) := rfl
  exact ⟨hW, skip_accumulation netConst none none [1000, 500] [rawC, rawC] reqsW hW⟩

lemma chunks_1500_eval : chunks 1500 = [1000, 500] := by
  rw [chunks_of_gt (by norm_num)]
  norm_num
  rw [chunks_of_le (by norm_num)]

/-- The extras of the end-to-end scenario: simplify, sort, and filter
with threshold 100. -/
def ex9 : Extras := { simplify := true, sort := true, filter := true, filterSize := some 100 }

/-- C9: `Get(1500, {}, {simplify, sort, filter, filterSize: 100})`
issues exactly the two requests of amounts 1000 and 500 at skip offsets
0 and 1000; the returned list is the two pages concatenated, projected
by `simplify`, sorted by the comparator, and filtered to `members >
100`; every returned record has `members > 100`; and when every fetched
entity carries a `memberCount` the result is sorted descending by
`members`. -/
theorem end_to_end_1500 (net : String → Except FetchErr (List SObj)) (p1 p2 : List SObj)
    (h1 : net (getUrl 1000 0 none none).url = .ok p1)
    (h2 : net (getUrl 500 1000 none none).url = .ok p2) :
    chunks 1500 = [1000, 500] ∧
    ∃ (l : List SObj) (reqs : List Request) (log : List String),
      getServers 1500 {} ex9 net (Except.ok ()) = .ok (l, reqs, log) ∧
      reqs.map Request.amount = [1000, 500] ∧
      reqs.map Request.skip = [0, 1000] ∧
      l = (sortJS (simplify (p1 ++ p2))).filter (fun s => jsGt s.members (some 100)) ∧
      (∀ x ∈ l, jsGt x.members (some 100) = true) ∧
      ((∀ s ∈ p1 ++ p2, s.memberCount.isSome) → l.Chain' descRel) := by
  have hstep1 : fetchLoop net none none [1000, 500] 0 =
      .ok (p1 ++ (p2 ++ []),
        [⟨1000, 0, (getUrl 1000 0 none none).url⟩,
         ⟨500, 1000, (getUrl 500 1000 none none).url⟩]) := by
    simp only [fetchLoop, h1]
    rw [show (0 : Int) + (getUrl 1000 0 none none).skip = 1000 from rfl]
    simp only [h2]
  refine ⟨chunks_1500_eval, ?_⟩
  refine ⟨(sortJS (simplify (p1 ++ p2))).filter (fun s => jsGt s.members (some 100)),
    [⟨1000, 0, (getUrl 1000 0 none none).url⟩,
     ⟨500, 1000, (getUrl 500 1000 none none).url⟩], [], ?_, rfl, rfl, rfl, ?_, ?_⟩
  · show (match fetchLoop net none none (chunks 1500) 0 with
      | .error e => .error e
      | .ok (serverList, reqs) =>
        let out := parseServers serverList ex9 (Except.ok ())
        .ok (out.1, reqs, out.2) :
        Except FetchErr (List SObj × List Request × List String)) = _
    rw [chunks_1500_eval, hstep1]
    simp only [parseServers, ex9, List.append_nil]
    rfl
  · intro x hx
    exact (List.mem_filter.mp hx).2
  · intro hmc
    have hmc' : ∀ s ∈ p1 ++ p2, s.memberCount.isSome := hmc
    have hP : (sortJS (simplify (p1 ++ p2))).Pairwise descRel :=
      sortJS_pairwise _ (simplify_members_isSome hmc')
    exact (hP.sublist (List.filter_sublist _)).chain'

/-- Witness for C9: a network oracle answering every request with the
page `[rawC]`. -/
theorem end_to_end_1500_witness :
    (netConst (getUrl 1000 0 none none).url = .ok [rawC] ∧
     netConst (getUrl 500 1000 none none).url = .ok [rawC]) ∧
    (chunks 1500 = [1000, 500] ∧
     ∃ (l : List SObj) (reqs : List Request) (log : List String),
       getServers 1500 {} ex9 netConst (Except.ok ()) = .ok (l, reqs, log) ∧
       reqs.map Request.amount = [1000, 500] ∧
       reqs.map Request.skip = [0, 1000] ∧
       l = (sortJS (simplify ([rawC] ++ [rawC]))).filter (fun s => jsGt s.members (some 100)) ∧
       (∀ x ∈ l, jsGt x.members (some 100) = true) ∧
       ((∀ s ∈ [rawC] ++ [rawC], s.memberCount.isSome) → l.Chain' descRel)) :=
  ⟨⟨rfl, rfl⟩, end_to_end_1500 netConst [rawC] [rawC] rfl rfl⟩

end TopGG
